import Mathlib

/-!
Shallow embedding of the NeuroKit_mice respiration extrema pipeline
(`src/neurokit2/rsp/rsp_findpeaks.py`) and of the multi-signal orchestrator
(`src/neurokit2/bio/bio_process.py`), together with theorems settling the
frozen claims about the natural-language specification.

Signals are sequences of rationals (`List ℚ`); sample indices are `Nat`;
Python exceptions are an explicit error type and fallible functions return
`Except`.  NumPy's `np.mean` of an empty array is NaN and every comparison
with NaN is false; in the one place this could matter (the outlier threshold
with fewer than two extrema) the set of difference positions is empty anyway,
so the rational value `sum / 0 = 0` is extensionally equivalent.
-/

namespace NKMice

/-- Model of a cleaned respiration signal: an ordered sequence of rationals. -/
abbrev Signal := List ℚ

/-- Model of the Python exceptions raised by the code under `src/`:
`IndexError` (raw index-out-of-range / empty-sequence faults), `KeyError`
(failed column lookup, carrying the missing key) and `ValueError`
(invalid-argument errors, carrying the message). -/
inductive PyError where
  | indexError : PyError
  | keyError : String → PyError
  | valueError : String → PyError
deriving DecidableEq, Repr

/-- Rising zero-crossings (`risex`, rsp_findpeaks.py line 143): indices `i`
with `sig[i] < 0` and `sig[i+1] > 0`. -/
def risex (sig : Signal) : List Nat :=
  (List.range (sig.length - 1)).filter fun i =>
    decide (sig.getD i 0 < 0 ∧ 0 < sig.getD (i + 1) 0)

/-- Falling zero-crossings (`fallx`, line 144): indices `i` with
`sig[i] > 0` and `sig[i+1] < 0`. -/
def fallx (sig : Signal) : List Nat :=
  (List.range (sig.length - 1)).filter fun i =>
    decide (0 < sig.getD i 0 ∧ sig.getD (i + 1) 0 < 0)

/-- Model of `np.argmax`: index of the first occurrence of the maximum
(0 on the empty array, where NumPy raises; only ever applied to nonempty
slices here). -/
def npArgmax : List ℚ → Nat
  | [] => 0
  | [_] => 0
  | a :: b :: rest =>
    let j := npArgmax (b :: rest)
    if a < (b :: rest).getD j 0 then j + 1 else 0

/-- Model of `np.argmin`: index of the first occurrence of the minimum. -/
def npArgmin : List ℚ → Nat
  | [] => 0
  | [_] => 0
  | a :: b :: rest =>
    let j := npArgmin (b :: rest)
    if (b :: rest).getD j 0 < a then j + 1 else 0

/-- Model of the slice `sig[beg:fin]`. -/
def npSlice (sig : Signal) (beg fin : Nat) : Signal :=
  (sig.drop beg).take (fin - beg)

/-- Model of `allx.sort(kind="mergesort")` (line 152).  The rising and
falling crossing indices are pairwise distinct, so every comparison sort
produces the same list; we use insertion sort (also a stable sort) because
it is structurally recursive and hence kernel-computable. -/
def npSortNat (l : List Nat) : List Nat := List.insertionSort (· ≤ ·) l

/-- Merged, sorted crossing indices (`allx`, lines 151-152). -/
def allx (sig : Signal) : List Nat := npSortNat (risex sig ++ fallx sig)

/-- Body of the extrema-search loop (lines 158-178) for interval `i`:
search the slice `sig[allx[i]:allx[i+1]]` for its arg-max or arg-min
according to the alternation parity fixed by the first crossing, and
return the absolute index `beg + local_offset`. -/
def extremaSearchAt (sig : Signal) (ax : List Nat) (startRise : Bool) (i : Nat) : Nat :=
  let beg := ax.getD i 0
  let fin := ax.getD (i + 1) 0
  let argextreme :=
    if startRise then (if (i + 1) % 2 ≠ 0 then npArgmax else npArgmin)
    else (if (i + 1) % 2 ≠ 0 then npArgmin else npArgmax)
  beg + argextreme (npSlice sig beg fin)

/-- Model of `_rsp_findpeaks_extrema` (lines 138-181).  When `risex` is
empty, Python raises `IndexError` at `risex[0]` (line 146); when `risex`
is nonempty but `fallx` is empty, it raises `IndexError` at `fallx[0]`.
When both are nonempty, `risex[0] = fallx[0]` is impossible (an index
cannot be both a rising and a falling crossing), so the `if`/`elif` of
lines 146-149 always sets `startx`, modelled by the Boolean `startRise`. -/
def _rsp_findpeaks_extrema (sig : Signal) : Except PyError (List Nat) :=
  match risex sig, fallx sig with
  | [], _ => .error .indexError
  | _ :: _, [] => .error .indexError
  | r0 :: _, f0 :: _ =>
    let startRise := r0 < f0
    let ax := allx sig
    .ok ((List.range (ax.length - 1)).map (extremaSearchAt sig ax startRise))

/-- Model of `np.abs`, written with a conditional so that it is
kernel-computable. -/
def npAbs (x : ℚ) : ℚ := if x < 0 then -x else x

/-- Vertical distances `np.abs(np.diff(rsp_cleaned[extrema]))` (line 189). -/
def verticalDiff (sig : Signal) (extrema : List Nat) : List ℚ :=
  let amps := extrema.map fun e => sig.getD e 0
  List.zipWith (fun a b => npAbs (b - a)) amps amps.tail

/-- Mean vertical distance `np.mean(vertical_diff)` (line 190). -/
def averageDiff (sig : Signal) (extrema : List Nat) : ℚ :=
  (verticalDiff sig extrema).sum / (verticalDiff sig extrema).length

/-- Retained difference positions,
`np.where(vertical_diff > (average_diff * outlier_threshold))[0]` (line 191). -/
def minDiffIdx (sig : Signal) (extrema : List Nat) (outlier_threshold : ℚ) : List Nat :=
  (List.range (verticalDiff sig extrema).length).filter fun i =>
    decide (averageDiff sig extrema * outlier_threshold < (verticalDiff sig extrema).getD i 0)

/-- The thresholding step of the Outlier Filter, `extrema = extrema[min_diff]`
(lines 189-192): the extrema retained are those sitting at retained
difference positions. -/
def outliersThreshold (sig : Signal) (extrema : List Nat) (outlier_threshold : ℚ) : List Nat :=
  (minDiffIdx sig extrema outlier_threshold).map fun i => extrema.getD i 0

/-- Model of `np.sign` on rationals. -/
def npSign (x : ℚ) : Int := if 0 < x then 1 else if x < 0 then -1 else 0

/-- Model of `np.delete(l, idxs)`: keep the elements whose position is not
listed in `idxs`. -/
def npDelete [Inhabited α] (l : List α) (idxs : List Nat) : List α :=
  ((List.range l.length).filter fun i => ! idxs.contains i).map fun i => l.getD i default

/-- Positions removed by the alternation-repair step (lines 198-200):
signs of consecutive amplitude differences, pairwise sums of adjacent
signs, and `np.where(extdiffs != 0)[0] + 1`. -/
def removeextIdx (amplitudes : List ℚ) : List Nat :=
  let extdiffs := List.zipWith (fun a b => npSign (b - a)) amplitudes amplitudes.tail
  let sums := List.zipWith (· + ·) extdiffs extdiffs.tail
  ((List.range sums.length).filter fun i => decide (sums.getD i 0 ≠ 0)).map (· + 1)

/-- Model of `_rsp_findpeaks_outliers` (lines 184-204). -/
def _rsp_findpeaks_outliers (sig : Signal) (extrema : List Nat) (outlier_threshold : ℚ) :
    List Nat × List ℚ :=
  let extrema1 := outliersThreshold sig extrema outlier_threshold
  let amplitudes := extrema1.map fun e => sig.getD e 0
  let removeext := removeextIdx amplitudes
  (npDelete extrema1 removeext, npDelete amplitudes removeext)

/-- Elements at the even positions 0, 2, 4, … of a list. -/
def sliceStep2 : List α → List α
  | [] => []
  | [a] => [a]
  | a :: _ :: rest => a :: sliceStep2 rest

/-- Model of `_rsp_findpeaks_sanitize` (lines 207-220).  With fewer than two
amplitudes, `amplitudes[0] > amplitudes[1]` raises `IndexError`.  Both trim
conditions are tested on the *input* amplitude list (Python deletes only
from `extrema`); `peaks = extrema[1::2]` and `troughs = extrema[0:-1:2]`. -/
def _rsp_findpeaks_sanitize (extrema : List Nat) (amplitudes : List ℚ) :
    Except PyError (List Nat × List Nat) :=
  if amplitudes.length < 2 then .error .indexError
  else
    let e1 := if amplitudes.getD 1 0 < amplitudes.getD 0 0 then extrema.drop 1 else extrema
    let e2 :=
      if amplitudes.getD (amplitudes.length - 1) 0 < amplitudes.getD (amplitudes.length - 2) 0
      then e1.dropLast else e1
    .ok (sliceStep2 (e2.drop 1), sliceStep2 e2.dropLast)

/-- Detection Info returned by the pipeline: the mapping with keys
"RSP_Peaks" and "RSP_Troughs". -/
structure RspInfo where
  RSP_Peaks : List Nat
  RSP_Troughs : List Nat
deriving DecidableEq, Repr

/-- Model of `_rsp_findpeaks_khodadad` (lines 102-111). -/
def _rsp_findpeaks_khodadad (rsp_cleaned : Signal) (outlier_threshold : ℚ) :
    Except PyError RspInfo :=
  match _rsp_findpeaks_extrema rsp_cleaned with
  | .error e => .error e
  | .ok extrema =>
    let (extrema2, amplitudes) := _rsp_findpeaks_outliers rsp_cleaned extrema outlier_threshold
    match _rsp_findpeaks_sanitize extrema2 amplitudes with
    | .error e => .error e
    | .ok (peaks, troughs) => .ok ⟨peaks, troughs⟩

/-- Model of `_rsp_findpeaks_biosppy` (lines 97-98). -/
def _rsp_findpeaks_biosppy (rsp_cleaned : Signal) : Except PyError RspInfo :=
  _rsp_findpeaks_khodadad rsp_cleaned 0

/-- Binary indicator series of length `n` marking the given indices with 1. -/
def indicatorColumn (idxs : List Nat) (n : Nat) : List Nat :=
  (List.range n).map fun i => if idxs.contains i then 1 else 0

/-- Modelled from the spec: `_signals_from_peakinfo` is imported from
`signal/signal_from_indices.py`, which is not among the sources; §4.4 of the
spec describes its output as "two binary indicator series of length N, set 1
at each Peak index and each Trough index respectively, 0 elsewhere", i.e. the
"RSP_Peaks" and "RSP_Troughs" columns of the signals table. -/
def _signals_from_peakinfo (info : RspInfo) (length : Nat) : List Nat × List Nat :=
  (indicatorColumn info.RSP_Peaks length, indicatorColumn info.RSP_Troughs length)

/-- Forward fill (`fillna(method="pad")`, line 130): missing entries take the
last preceding defined value; leading missing entries stay missing. -/
def padFill : Option ℚ → List (Option ℚ) → List (Option ℚ)
  | _, [] => []
  | _, some v :: rest => some v :: padFill (some v) rest
  | acc, none :: rest => acc :: padFill acc rest

/-- Initial inspiration series (lines 125-127): NaN everywhere, then 0.0 at
peak samples, then 1.0 at trough samples; the trough assignment happens
second, so a sample marked both ways would read 1.0. -/
def inspirationRaw (peaksCol troughsCol : List Nat) : List (Option ℚ) :=
  (List.range peaksCol.length).map fun i =>
    if troughsCol.getD i 0 = 1 then some 1
    else if peaksCol.getD i 0 = 1 then some 0
    else none

/-- Model of `_rsp_findpeaks_phase` (lines 124-132).  `last_element` is the
last non-missing index, obtained as `np.where(~np.isnan(inspiration))[0][-1]`;
with no marked sample at all this `[-1]` raises `IndexError`.  Positions
`0 ≤ i < last_element` are replaced by the forward-filled values; positions
from `last_element` on keep the initial series. -/
def _rsp_findpeaks_phase (peaksCol troughsCol : List Nat) :
    Except PyError (List (Option ℚ)) :=
  let inspiration := inspirationRaw peaksCol troughsCol
  match ((List.range inspiration.length).filter fun i =>
      (inspiration.getD i none).isSome).getLast? with
  | none => .error .indexError
  | some lastElement =>
    .ok ((padFill none inspiration).take lastElement ++ inspiration.drop lastElement)

/-- Signals table returned by `rsp_findpeaks`: the two indicator columns and
the derived inspiration-phase column (missing entries are `none`). -/
structure RspSignals where
  RSP_Peaks : List Nat
  RSP_Troughs : List Nat
  RSP_Inspiration : List (Option ℚ)
deriving DecidableEq, Repr

/-- Input accepted by `rsp_findpeaks`: a raw sequence or a data frame,
modelled as an association list of named columns. -/
inductive RspInput where
  | raw (sig : Signal)
  | table (df : List (String × Signal))

/-- First column with the given name, if any. -/
def dfColumn? (df : List (String × Signal)) (key : String) : Option Signal :=
  (df.find? fun p => p.1 == key).map (·.2)

/-- Model of the column retrieval of `rsp_findpeaks` (lines 60-67).  The
`try`/`except` chain catches `NameError`, but subscripting a data frame with
a missing column raises `KeyError`, which is never caught: when "RSP_Clean"
is absent the `KeyError` propagates and the "RSP_Raw" / "RSP" fallbacks are
unreachable. -/
def getRespirationColumn : RspInput → Except PyError Signal
  | .raw sig => .ok sig
  | .table df =>
    match dfColumn? df "RSP_Clean" with
    | some col => .ok col
    | none => .error (.keyError "RSP_Clean")

/-- Model of Python's `str.lower()` (`method.lower()`, line 72): ASCII case
folding, written over the character list so that it is kernel-computable. -/
def pyLower (s : String) : String := String.mk (s.data.map Char.toLower)

/-- Message of the `ValueError` raised for an unrecognized method (lines 78-79). -/
def invalidMethodMsg : String :=
  "NeuroKit error: rsp_findpeaks(): \x27method\x27 should be one of \x27khodadad2018\x27 or \x27biosppy\x27."

/-- Model of `rsp_findpeaks` (lines 8-87): column retrieval, case-insensitive
method dispatch, signals-table construction and phase derivation. -/
def rsp_findpeaks (rsp_cleaned : RspInput) (method : String) (outlier_threshold : ℚ) :
    Except PyError (RspSignals × RspInfo) :=
  match getRespirationColumn rsp_cleaned with
  | .error e => .error e
  | .ok cleaned =>
    let m := pyLower method
    match (if ["khodadad", "khodadad2018"].contains m then
             _rsp_findpeaks_khodadad cleaned outlier_threshold
           else if m = "biosppy" then
             _rsp_findpeaks_biosppy cleaned
           else .error (.valueError invalidMethodMsg)) with
    | .error e => .error e
    | .ok info =>
      let cols := _signals_from_peakinfo info cleaned.length
      match _rsp_findpeaks_phase cols.1 cols.2 with
      | .error e => .error e
      | .ok inspiration => .ok (⟨cols.1, cols.2, inspiration⟩, info)

/-! ### Generic list lemmas -/

/-- Reading a strictly sorted list of naturals at two valid positions in
order gives strictly increasing values. -/
theorem pairwise_getD_lt {l : List Nat} (h : l.Pairwise (· < ·)) {i j : Nat}
    (hij : i < j) (hj : j < l.length) : l.getD i 0 < l.getD j 0 := by
  have hi : i < l.length := lt_trans hij hj
  rw [List.getD_eq_getElem?_getD, List.getD_eq_getElem?_getD,
    List.getElem?_eq_getElem hi, List.getElem?_eq_getElem hj]
  have := List.pairwise_iff_get.mp h ⟨i, hi⟩ ⟨j, hj⟩ hij
  simpa [List.get_eq_getElem] using this

/-- Selecting elements of a strictly sorted list at a strictly sorted list
of valid positions yields a strictly sorted list. -/
theorem pairwise_map_getD_lt {l : List Nat} (hl : l.Pairwise (· < ·)) {idxs : List Nat}
    (hidx : idxs.Pairwise (· < ·)) (hb : ∀ i ∈ idxs, i < l.length) :
    (idxs.map fun i => l.getD i 0).Pairwise (· < ·) := by
  rw [List.pairwise_map]
  exact hidx.imp_of_mem fun _ hbm hab => pairwise_getD_lt hl hab (hb _ hbm)

/-- Transitive closure of an adjacent strict increase on an initial segment. -/
theorem lt_of_adjacent_lt {g : Nat → Nat} {m : Nat}
    (h : ∀ i, i + 1 < m → g i < g (i + 1)) :
    ∀ {i j : Nat}, i < j → j < m → g i < g j := by
  intro i j hij hjm
  induction j with
  | zero => omega
  | succ k ih =>
    rcases Nat.lt_succ_iff_lt_or_eq.mp hij with hlt | heq
    · exact lt_trans (ih hlt (by omega)) (h k hjm)
    · subst heq; exact h i hjm

/-! ### Lemmas about the Extrema Locator -/

theorem npArgmax_lt_length : (l : List ℚ) → l ≠ [] → npArgmax l < l.length
  | [], h => absurd rfl h
  | [_], _ => Nat.zero_lt_one
  | a :: b :: rest, _ => by
    have ih := npArgmax_lt_length (b :: rest) (List.cons_ne_nil _ _)
    simp only [npArgmax]
    split
    · simpa using Nat.succ_lt_succ ih
    · simp

theorem npArgmin_lt_length : (l : List ℚ) → l ≠ [] → npArgmin l < l.length
  | [], h => absurd rfl h
  | [_], _ => Nat.zero_lt_one
  | a :: b :: rest, _ => by
    have ih := npArgmin_lt_length (b :: rest) (List.cons_ne_nil _ _)
    simp only [npArgmin]
    split
    · simpa using Nat.succ_lt_succ ih
    · simp

theorem mem_risex {sig : Signal} {i : Nat} (h : i ∈ risex sig) :
    i < sig.length - 1 ∧ sig.getD i 0 < 0 ∧ 0 < sig.getD (i + 1) 0 := by
  obtain ⟨hr, hp⟩ := List.mem_filter.mp h
  exact ⟨List.mem_range.mp hr, of_decide_eq_true hp⟩

theorem mem_fallx {sig : Signal} {i : Nat} (h : i ∈ fallx sig) :
    i < sig.length - 1 ∧ 0 < sig.getD i 0 ∧ sig.getD (i + 1) 0 < 0 := by
  obtain ⟨hr, hp⟩ := List.mem_filter.mp h
  exact ⟨List.mem_range.mp hr, of_decide_eq_true hp⟩

theorem risex_pairwise (sig : Signal) : (risex sig).Pairwise (· < ·) :=
  (List.pairwise_lt_range _).filter _

theorem fallx_pairwise (sig : Signal) : (fallx sig).Pairwise (· < ·) :=
  (List.pairwise_lt_range _).filter _

/-- An index cannot be both a rising and a falling crossing. -/
theorem risex_fallx_disjoint (sig : Signal) : (risex sig).Disjoint (fallx sig) := by
  intro i hr hf
  have h1 := (mem_risex hr).2.1
  have h2 := (mem_fallx hf).2.1
  exact absurd (lt_trans h1 h2) (lt_irrefl _)

theorem mem_allx {sig : Signal} {i : Nat} :
    i ∈ allx sig ↔ i ∈ risex sig ∨ i ∈ fallx sig := by
  rw [allx, npSortNat, (List.perm_insertionSort _ _).mem_iff, List.mem_append]

theorem allx_pairwise (sig : Signal) : (allx sig).Pairwise (· < ·) := by
  have hsorted : (allx sig).Pairwise (· ≤ ·) := List.sorted_insertionSort _ _
  have hnodup : (allx sig).Nodup := by
    have hnr : (risex sig).Nodup := (risex_pairwise sig).imp fun hl => ne_of_lt hl
    have hnf : (fallx sig).Nodup := (fallx_pairwise sig).imp fun hl => ne_of_lt hl
    have hn : (risex sig ++ fallx sig).Nodup := hnr.append hnf (risex_fallx_disjoint sig)
    exact (List.perm_insertionSort _ _).symm.nodup hn
  exact (hsorted.and hnodup).imp fun hab => lt_of_le_of_ne hab.1 hab.2

theorem allx_lt {sig : Signal} {i : Nat} (h : i ∈ allx sig) : i < sig.length - 1 := by
  rcases mem_allx.mp h with hr | hf
  · exact (mem_risex hr).1
  · exact (mem_fallx hf).1

theorem npSlice_length (sig : Signal) (beg fin : Nat) :
    (npSlice sig beg fin).length = min (fin - beg) (sig.length - beg) := by
  simp [npSlice]

/-- The searched extremum of interval `i` lies in `[allx[i], allx[i+1])`. -/
theorem extremaSearchAt_bounds {sig : Signal} {ax : List Nat} {startRise : Bool} {i : Nat}
    (hbe : ax.getD i 0 < ax.getD (i + 1) 0) (hbl : ax.getD i 0 < sig.length) :
    ax.getD i 0 ≤ extremaSearchAt sig ax startRise i ∧
      extremaSearchAt sig ax startRise i < ax.getD (i + 1) 0 := by
  have hne : npSlice sig (ax.getD i 0) (ax.getD (i + 1) 0) ≠ [] := by
    rw [← List.length_pos_iff_ne_nil, npSlice_length]
    omega
  have hlen : (npSlice sig (ax.getD i 0) (ax.getD (i + 1) 0)).length ≤
      ax.getD (i + 1) 0 - ax.getD i 0 := by
    rw [npSlice_length]; omega
  have hmax := lt_of_lt_of_le (npArgmax_lt_length _ hne) hlen
  have hmin := lt_of_lt_of_le (npArgmin_lt_length _ hne) hlen
  simp only [extremaSearchAt]
  split_ifs <;> constructor <;> omega

/-- The candidate extrema returned by the Extrema Locator are strictly
increasing sample indices. -/
theorem extrema_ok_pairwise {sig : Signal} {ext : List Nat}
    (h : _rsp_findpeaks_extrema sig = .ok ext) : ext.Pairwise (· < ·) := by
  unfold _rsp_findpeaks_extrema at h
  cases hr : risex sig with
  | nil => rw [hr] at h; simp at h
  | cons r0 rtl =>
    cases hf : fallx sig with
    | nil => rw [hr, hf] at h; simp at h
    | cons f0 ftl =>
      rw [hr, hf] at h
      simp only [Except.ok.injEq] at h
      subst h
      rw [List.pairwise_map]
      have hax := allx_pairwise sig
      have hadj : ∀ j, j + 1 < (allx sig).length - 1 →
          extremaSearchAt sig (allx sig) (decide (r0 < f0)) j <
            extremaSearchAt sig (allx sig) (decide (r0 < f0)) (j + 1) := by
        intro j hj
        have hj1 : j + 1 < (allx sig).length := by omega
        have hbe : (allx sig).getD j 0 < (allx sig).getD (j + 1) 0 :=
          pairwise_getD_lt hax (Nat.lt_succ_self j) hj1
        have hmem : (allx sig).getD j 0 ∈ allx sig := by
          have hjl : j < (allx sig).length := by omega
          rw [List.getD_eq_getElem?_getD, List.getElem?_eq_getElem hjl]
          exact List.getElem_mem hjl
        have hbl : (allx sig).getD j 0 < sig.length :=
          lt_of_lt_of_le (allx_lt hmem) (Nat.sub_le _ _)
        have h1 := @extremaSearchAt_bounds sig (allx sig) (decide (r0 < f0)) j hbe hbl
        have h2 : (allx sig).getD (j + 1) 0 ≤
            extremaSearchAt sig (allx sig) (decide (r0 < f0)) (j + 1) := by
          by_cases hj2 : j + 1 + 1 < (allx sig).length
          · exact (@extremaSearchAt_bounds sig (allx sig) (decide (r0 < f0)) (j + 1)
              (pairwise_getD_lt hax (Nat.lt_succ_self _) hj2)
              (lt_of_lt_of_le (allx_lt (by
                rw [List.getD_eq_getElem?_getD, List.getElem?_eq_getElem hj1]
                exact List.getElem_mem hj1)) (Nat.sub_le _ _))).1
          · exact Nat.le_add_right _ _
        omega
      refine (List.pairwise_lt_range _).imp_of_mem fun ha hb hab => ?_
      exact lt_of_adjacent_lt hadj hab
        (by simpa using List.mem_range.mp hb)

/-! ### Lemmas about the Outlier Filter -/

theorem verticalDiff_length (sig : Signal) (extrema : List Nat) :
    (verticalDiff sig extrema).length = extrema.length - 1 := by
  simp only [verticalDiff, List.length_zipWith, List.length_tail, List.length_map]
  omega

theorem outliersThreshold_pairwise {sig : Signal} {extrema : List Nat} {t : ℚ}
    (h : extrema.Pairwise (· < ·)) :
    (outliersThreshold sig extrema t).Pairwise (· < ·) := by
  apply pairwise_map_getD_lt h ((List.pairwise_lt_range _).filter _)
  intro i hi
  have hr := List.mem_range.mp (List.mem_of_mem_filter hi)
  rw [verticalDiff_length] at hr
  omega

theorem npDelete_pairwise {l : List Nat} (h : l.Pairwise (· < ·)) (idxs : List Nat) :
    (npDelete l idxs).Pairwise (· < ·) := by
  apply pairwise_map_getD_lt h ((List.pairwise_lt_range _).filter _)
  intro i hi
  exact List.mem_range.mp (List.mem_of_mem_filter hi)

theorem outliers_fst_pairwise {sig : Signal} {extrema : List Nat} {t : ℚ}
    (h : extrema.Pairwise (· < ·)) :
    (_rsp_findpeaks_outliers sig extrema t).1.Pairwise (· < ·) := by
  unfold _rsp_findpeaks_outliers
  exact npDelete_pairwise (outliersThreshold_pairwise h) _

/-! ### Lemmas about the Alternation Sanitizer -/

theorem sliceStep2_length : (l : List α) → (sliceStep2 l).length = (l.length + 1) / 2
  | [] => by simp [sliceStep2]
  | [a] => by simp [sliceStep2]
  | a :: b :: rest => by
    simp only [sliceStep2, List.length_cons, sliceStep2_length rest]
    omega

theorem sliceStep2_getD (d : α) : (l : List α) → (i : Nat) →
    (sliceStep2 l).getD i d = l.getD (2 * i) d
  | [], i => by simp [sliceStep2]
  | [a], 0 => by simp [sliceStep2]
  | [a], (i + 1) => by
    have e : 2 * (i + 1) = 2 * i + 1 + 1 := by ring
    rw [sliceStep2, e, List.getD_cons_succ, List.getD_cons_succ]
    simp [List.getD]
  | a :: b :: rest, 0 => by simp [sliceStep2]
  | a :: b :: rest, (i + 1) => by
    have e : 2 * (i + 1) = 2 * i + 1 + 1 := by ring
    rw [sliceStep2, e, List.getD_cons_succ, List.getD_cons_succ, List.getD_cons_succ,
      sliceStep2_getD d rest i]

/-- Core property of the Alternation Sanitizer output on a strictly sorted
extrema list: `peaks = l[1::2]` and `troughs = l[0:-1:2]` have equal length
and alternate strictly, trough first. -/
theorem peaks_troughs_of_pairwise {l : List Nat} (h : l.Pairwise (· < ·)) :
    (sliceStep2 (l.drop 1)).length = (sliceStep2 l.dropLast).length ∧
    ∀ i, i < (sliceStep2 (l.drop 1)).length →
      (sliceStep2 l.dropLast).getD i 0 < (sliceStep2 (l.drop 1)).getD i 0 ∧
      (i + 1 < (sliceStep2 l.dropLast).length →
        (sliceStep2 (l.drop 1)).getD i 0 < (sliceStep2 l.dropLast).getD (i + 1) 0) := by
  have hlp : (sliceStep2 (l.drop 1)).length = (l.length - 1 + 1) / 2 := by
    rw [sliceStep2_length, List.length_drop]
  have hlt : (sliceStep2 l.dropLast).length = (l.length - 1 + 1) / 2 := by
    rw [sliceStep2_length, List.length_dropLast]
  refine ⟨by omega, ?_⟩
  intro i hi
  rw [hlp] at hi
  have h2i1 : 2 * i + 1 < l.length := by omega
  have h2i : 2 * i < l.length - 1 := by omega
  have hgp : (sliceStep2 (l.drop 1)).getD i 0 = l.getD (2 * i + 1) 0 := by
    rw [sliceStep2_getD, List.getD_eq_getElem?_getD, List.getElem?_drop,
      ← List.getD_eq_getElem?_getD]
    have e : 1 + 2 * i = 2 * i + 1 := by omega
    rw [e]
  have hgt : (sliceStep2 l.dropLast).getD i 0 = l.getD (2 * i) 0 := by
    rw [sliceStep2_getD, List.dropLast_eq_take, List.getD_eq_getElem?_getD,
      List.getElem?_take, if_pos h2i, ← List.getD_eq_getElem?_getD]
  constructor
  · rw [hgp, hgt]
    exact pairwise_getD_lt h (by omega) h2i1
  · intro hi1
    rw [hlt] at hi1
    have h2i2 : 2 * (i + 1) < l.length - 1 := by omega
    have hgt1 : (sliceStep2 l.dropLast).getD (i + 1) 0 = l.getD (2 * (i + 1)) 0 := by
      rw [sliceStep2_getD, List.dropLast_eq_take, List.getD_eq_getElem?_getD,
        List.getElem?_take, if_pos h2i2, ← List.getD_eq_getElem?_getD]
    rw [hgp, hgt1]
    exact pairwise_getD_lt h (by omega) (by omega)

/-- A successful run of the Alternation Sanitizer on strictly increasing
extrema returns equally long, strictly alternating peak and trough indices. -/
theorem sanitize_ok_props {e : List Nat} {amps : List ℚ} {p tr : List Nat}
    (hpe : e.Pairwise (· < ·))
    (h : _rsp_findpeaks_sanitize e amps = .ok (p, tr)) :
    p.length = tr.length ∧
    ∀ i, i < p.length → tr.getD i 0 < p.getD i 0 ∧
      (i + 1 < tr.length → p.getD i 0 < tr.getD (i + 1) 0) := by
  unfold _rsp_findpeaks_sanitize at h
  split at h
  · simp at h
  · simp only [Except.ok.injEq, Prod.mk.injEq] at h
    obtain ⟨hp, htr⟩ := h
    subst hp; subst htr
    split_ifs <;>
      first
        | exact peaks_troughs_of_pairwise hpe
        | exact peaks_troughs_of_pairwise (@List.Pairwise.drop _ _ _ 1 hpe)
        | exact peaks_troughs_of_pairwise (List.Pairwise.sublist (List.dropLast_sublist _) hpe)
        | exact peaks_troughs_of_pairwise
            (List.Pairwise.sublist (List.dropLast_sublist _) (@List.Pairwise.drop _ _ _ 1 hpe))

/-- A successful run of the khodadad2018 chain returns equally long,
strictly alternating peak and trough indices. -/
theorem khodadad_ok_props {sig : Signal} {t : ℚ} {info : RspInfo}
    (h : _rsp_findpeaks_khodadad sig t = .ok info) :
    info.RSP_Peaks.length = info.RSP_Troughs.length ∧
    ∀ i, i < info.RSP_Peaks.length →
      info.RSP_Troughs.getD i 0 < info.RSP_Peaks.getD i 0 ∧
      (i + 1 < info.RSP_Troughs.length →
        info.RSP_Peaks.getD i 0 < info.RSP_Troughs.getD (i + 1) 0) := by
  unfold _rsp_findpeaks_khodadad at h
  split at h
  · simp at h
  next extrema heq =>
    split at h
    next e2 amps ho =>
      have he2 : e2.Pairwise (· < ·) := by
        have hpw := @outliers_fst_pairwise sig extrema t (extrema_ok_pairwise heq)
        rw [ho] at hpw
        exact hpw
      split at h
      · simp at h
      next peaks troughs heq2 =>
        simp only [Except.ok.injEq] at h
        subst h
        exact sanitize_ok_props he2 heq2

/-! ### Dissection of a successful `rsp_findpeaks` run -/

/-- Unfolding of a successful `rsp_findpeaks` call: the respiration column was
retrieved, the khodadad2018 chain ran at some threshold (0 for "biosppy"),
the table columns are the indicator columns of the returned info, and the
inspiration column is the successful phase output. -/
theorem rsp_findpeaks_ok_parts {inp : RspInput} {method : String} {t : ℚ}
    {tbl : RspSignals} {info : RspInfo}
    (h : rsp_findpeaks inp method t = .ok (tbl, info)) :
    ∃ cleaned t', getRespirationColumn inp = .ok cleaned ∧
      _rsp_findpeaks_khodadad cleaned t' = .ok info ∧
      tbl.RSP_Peaks = indicatorColumn info.RSP_Peaks cleaned.length ∧
      tbl.RSP_Troughs = indicatorColumn info.RSP_Troughs cleaned.length ∧
      _rsp_findpeaks_phase tbl.RSP_Peaks tbl.RSP_Troughs = .ok tbl.RSP_Inspiration := by
  unfold rsp_findpeaks at h
  split at h
  · simp at h
  next cleaned hg =>
    dsimp only at h
    split at h
    · simp at h
    next info0 hd =>
      split at h
      · simp at h
      next insp hph =>
        simp only [Except.ok.injEq, Prod.mk.injEq] at h
        obtain ⟨htbl, hinfo⟩ := h
        subst htbl; subst hinfo
        split at hd
        · exact ⟨cleaned, t, hg, hd, rfl, rfl, hph⟩
        · split at hd
          · unfold _rsp_findpeaks_biosppy at hd
            exact ⟨cleaned, 0, hg, hd, rfl, rfl, hph⟩
          · simp at hd

/-! ### Lemmas about the phase derivation -/

/-- Sample indices marked as a peak or a trough in the indicator columns. -/
def markedIdx (peaksCol troughsCol : List Nat) : List Nat :=
  (List.range peaksCol.length).filter fun i =>
    decide (troughsCol.getD i 0 = 1 ∨ peaksCol.getD i 0 = 1)

theorem markedIdx_pairwise (p tr : List Nat) : (markedIdx p tr).Pairwise (· < ·) :=
  (List.pairwise_lt_range _).filter _

theorem mem_markedIdx {p tr : List Nat} {i : Nat} :
    i ∈ markedIdx p tr ↔ i < p.length ∧ (tr.getD i 0 = 1 ∨ p.getD i 0 = 1) := by
  simp [markedIdx, List.mem_filter, List.mem_range]

theorem inspirationRaw_length (p tr : List Nat) :
    (inspirationRaw p tr).length = p.length := by
  simp [inspirationRaw]

theorem inspirationRaw_getD_lt {p tr : List Nat} {i : Nat} (hi : i < p.length) :
    (inspirationRaw p tr).getD i none =
      if tr.getD i 0 = 1 then some 1 else if p.getD i 0 = 1 then some 0 else none := by
  rw [inspirationRaw, List.getD_eq_getElem?_getD, List.getElem?_map, List.getElem?_range hi]
  rfl

theorem inspirationRaw_getD_ge {p tr : List Nat} {i : Nat} (hi : p.length ≤ i) :
    (inspirationRaw p tr).getD i none = none := by
  rw [List.getD_eq_getElem?_getD, List.getElem?_eq_none (by rw [inspirationRaw_length]; omega)]
  rfl

theorem inspirationRaw_isSome_iff {p tr : List Nat} {i : Nat} (hi : i < p.length) :
    ((inspirationRaw p tr).getD i none).isSome = true ↔
      (tr.getD i 0 = 1 ∨ p.getD i 0 = 1) := by
  rw [inspirationRaw_getD_lt hi]
  split_ifs with h1 h2
  · simp only [Option.isSome_some, true_iff]
    exact Or.inl h1
  · simp only [Option.isSome_some, true_iff]
    exact Or.inr h2
  · simp only [Option.isSome_none, Bool.false_eq_true, false_iff]
    rintro (hc | hc)
    · exact h1 hc
    · exact h2 hc

/-- The only defined values written into the initial inspiration series are
0 (peak) and 1 (trough). -/
theorem inspirationRaw_getD_val {p tr : List Nat} {i : Nat} {v : ℚ}
    (h : (inspirationRaw p tr).getD i none = some v) : v = 0 ∨ v = 1 := by
  by_cases hi : i < p.length
  · rw [inspirationRaw_getD_lt hi] at h
    split_ifs at h <;> simp_all
  · rw [inspirationRaw_getD_ge (by omega)] at h
    simp at h

/-- The non-missing positions searched by the phase derivation are exactly the
marked indices. -/
theorem phase_filter_eq (p tr : List Nat) :
    ((List.range (inspirationRaw p tr).length).filter fun i =>
      ((inspirationRaw p tr).getD i none).isSome) = markedIdx p tr := by
  rw [inspirationRaw_length, markedIdx]
  apply List.filter_congr
  intro i hi
  have hi' := List.mem_range.mp hi
  rw [Bool.eq_iff_iff, inspirationRaw_isSome_iff hi', decide_eq_true_eq]

theorem padFill_length : (acc : Option ℚ) → (l : List (Option ℚ)) →
    (padFill acc l).length = l.length
  | _, [] => rfl
  | acc, some v :: rest => by
    simp only [padFill, List.length_cons, padFill_length (some v) rest]
  | acc, none :: rest => by
    simp only [padFill, List.length_cons, padFill_length acc rest]

theorem padFill_isSome_of_acc : (l : List (Option ℚ)) → (acc : Option ℚ) →
    acc.isSome → ∀ j, j < l.length → ((padFill acc l).getD j none).isSome
  | [], _, _, j, hj => by simp at hj
  | some v :: rest, acc, hacc, 0, _ => by simp [padFill]
  | some v :: rest, acc, hacc, (j + 1), hj => by
    rw [padFill, List.getD_cons_succ]
    exact padFill_isSome_of_acc rest (some v) rfl j (by simpa using hj)
  | none :: rest, acc, hacc, 0, _ => by simpa [padFill] using hacc
  | none :: rest, acc, hacc, (j + 1), hj => by
    rw [padFill, List.getD_cons_succ]
    exact padFill_isSome_of_acc rest acc hacc j (by simpa using hj)

theorem padFill_isSome : (l : List (Option ℚ)) → (acc : Option ℚ) → (m j : Nat) →
    m ≤ j → j < l.length → (l.getD m none).isSome →
    ((padFill acc l).getD j none).isSome
  | [], _, _, j, _, hj, _ => by simp at hj
  | some v :: rest, acc, _, 0, _, _, _ => by simp [padFill]
  | some v :: rest, acc, m, (j + 1), _, hj, _ => by
    rw [padFill, List.getD_cons_succ]
    exact padFill_isSome_of_acc rest (some v) rfl j (by simpa using hj)
  | none :: rest, acc, 0, j, _, _, hm => by simp at hm
  | none :: rest, acc, (m + 1), 0, hmj, _, hm => by omega
  | none :: rest, acc, (m + 1), (j + 1), hmj, hj, hm => by
    rw [padFill, List.getD_cons_succ]
    rw [List.getD_cons_succ] at hm
    exact padFill_isSome rest acc m j (by omega) (by simpa using hj) hm

theorem padFill_getD_prop (P : ℚ → Prop) : (l : List (Option ℚ)) → (acc : Option ℚ) →
    (∀ w, acc = some w → P w) → (∀ i w, l.getD i none = some w → P w) →
    ∀ j v, (padFill acc l).getD j none = some v → P v
  | [], _, _, _, j, v, h => by simp [padFill, List.getD] at h
  | some w :: rest, acc, _, hl, 0, v, h => by
    rw [padFill, List.getD_cons_zero] at h
    exact hl 0 v (by simpa using h)
  | some w :: rest, acc, hacc, hl, (j + 1), v, h => by
    rw [padFill, List.getD_cons_succ] at h
    exact padFill_getD_prop P rest (some w)
      (fun u hu => hl 0 u (by simpa using hu))
      (fun i u hu => hl (i + 1) u (by simpa using hu)) j v h
  | none :: rest, acc, hacc, hl, 0, v, h => by
    rw [padFill, List.getD_cons_zero] at h
    exact hacc v h
  | none :: rest, acc, hacc, hl, (j + 1), v, h => by
    rw [padFill, List.getD_cons_succ] at h
    exact padFill_getD_prop P rest acc hacc
      (fun i u hu => hl (i + 1) u (by simpa using hu)) j v h

theorem mem_of_getLast?_eq : (l : List Nat) → {L : Nat} → l.getLast? = some L → L ∈ l
  | [], _, h => by simp at h
  | [a], L, h => by
    simp only [List.getLast?_singleton, Option.some.injEq] at h
    simp [h]
  | a :: b :: t, L, h => by
    rw [List.getLast?_cons_cons] at h
    exact List.mem_cons_of_mem _ (mem_of_getLast?_eq (b :: t) h)

theorem pairwise_le_of_getLast? : (l : List Nat) → l.Pairwise (· < ·) → {L : Nat} →
    l.getLast? = some L → ∀ x ∈ l, x ≤ L
  | [], _, _, hL => by simp at hL
  | [a], _, L, hL => by
    simp only [List.getLast?_singleton, Option.some.injEq] at hL
    intro x hx
    simp only [List.mem_singleton] at hx
    omega
  | a :: b :: t, h, L, hL => by
    rw [List.getLast?_cons_cons] at hL
    intro x hx
    rcases List.mem_cons.mp hx with rfl | hx'
    · exact le_of_lt ((List.pairwise_cons.mp h).1 L (mem_of_getLast?_eq _ hL))
    · exact pairwise_le_of_getLast? (b :: t) (List.pairwise_cons.mp h).2 hL x hx'

theorem mem_of_head?_eq {l : List Nat} {a : Nat} (h : l.head? = some a) : a ∈ l := by
  cases l with
  | nil => simp at h
  | cons x t =>
    simp only [List.head?_cons, Option.some.injEq] at h
    simp [h]

/-- Core property of a successful phase derivation: the series is undefined
strictly after the last marked index, and defined with value 0 or 1 at every
position from the first marked index to the last one inclusive. -/
theorem phase_ok_props {p tr : List Nat} {res : List (Option ℚ)} {F L : Nat}
    (h : _rsp_findpeaks_phase p tr = .ok res)
    (hF : (markedIdx p tr).head? = some F)
    (hL : (markedIdx p tr).getLast? = some L) :
    (∀ j, L < j → res.getD j none = none) ∧
    (∀ j, F ≤ j → j ≤ L → ∃ v, res.getD j none = some v ∧ (v = 0 ∨ v = 1)) := by
  unfold _rsp_findpeaks_phase at h
  dsimp only at h
  rw [phase_filter_eq] at h
  split at h
  · simp at h
  next lastElement heq =>
    rw [hL, Option.some.injEq] at heq
    subst heq
    simp only [Except.ok.injEq] at h
    subst h
    have hLmem : L ∈ markedIdx p tr := mem_of_getLast?_eq _ hL
    have hLlt : L < p.length := (mem_markedIdx.mp hLmem).1
    have hLsome : ((inspirationRaw p tr).getD L none).isSome :=
      (inspirationRaw_isSome_iff hLlt).mpr (mem_markedIdx.mp hLmem).2
    have hFmem : F ∈ markedIdx p tr := mem_of_head?_eq hF
    have hFlt : F < p.length := (mem_markedIdx.mp hFmem).1
    have hFsome : ((inspirationRaw p tr).getD F none).isSome :=
      (inspirationRaw_isSome_iff hFlt).mpr (mem_markedIdx.mp hFmem).2
    have hle : ∀ x ∈ markedIdx p tr, x ≤ L :=
      pairwise_le_of_getLast? _ (markedIdx_pairwise p tr) hL
    have hlen_insp : (inspirationRaw p tr).length = p.length := inspirationRaw_length p tr
    have htake_len : ((padFill none (inspirationRaw p tr)).take L).length = L := by
      rw [List.length_take, padFill_length, hlen_insp]
      omega
    have hresge : ∀ j, L ≤ j →
        ((padFill none (inspirationRaw p tr)).take L ++
          (inspirationRaw p tr).drop L).getD j none = (inspirationRaw p tr).getD j none := by
      intro j hj
      rw [List.getD_eq_getElem?_getD, List.getElem?_append, htake_len, if_neg (by omega),
        List.getElem?_drop]
      have e : L + (j - L) = j := by omega
      rw [e, ← List.getD_eq_getElem?_getD]
    have hreslt : ∀ j, j < L →
        ((padFill none (inspirationRaw p tr)).take L ++
          (inspirationRaw p tr).drop L).getD j none =
          (padFill none (inspirationRaw p tr)).getD j none := by
      intro j hj
      rw [List.getD_eq_getElem?_getD, List.getElem?_append, htake_len, if_pos hj,
        List.getElem?_take, if_pos hj, ← List.getD_eq_getElem?_getD]
    constructor
    · intro j hjL
      rw [hresge j (le_of_lt hjL)]
      by_cases hjn : j < p.length
      · cases hcase : (inspirationRaw p tr).getD j none with
        | none => rfl
        | some v =>
          have hsome : ((inspirationRaw p tr).getD j none).isSome = true := by
            rw [hcase]; rfl
          have hmem : j ∈ markedIdx p tr :=
            mem_markedIdx.mpr ⟨hjn, (inspirationRaw_isSome_iff hjn).mp hsome⟩
          exact absurd (hle j hmem) (by omega)
      · exact inspirationRaw_getD_ge (by omega)
    · intro j hFj hjL
      rcases lt_or_eq_of_le hjL with hlt | heqj
      · rw [hreslt j hlt]
        have hsome := padFill_isSome (inspirationRaw p tr) none F j hFj (by omega) hFsome
        obtain ⟨v, hv⟩ := Option.isSome_iff_exists.mp hsome
        exact ⟨v, hv, padFill_getD_prop (fun w => w = 0 ∨ w = 1) (inspirationRaw p tr) none
          (by simp) (fun _ _ hw => inspirationRaw_getD_val hw) j v hv⟩
      · subst heqj
        rw [hresge j le_rfl]
        obtain ⟨v, hv⟩ := Option.isSome_iff_exists.mp hLsome
        exact ⟨v, hv, inspirationRaw_getD_val hv⟩

/-! ### The multi-signal orchestrator `bio_process` -/

/-- Model of a pandas data frame: named columns over a positional row index. -/
structure DataFrame where
  cols : List (String × Signal)
deriving DecidableEq, Repr

/-- Model of the accumulated info dictionary of `bio_process`: bindings in
update order.  `dict.update` is modelled by appending the new bindings;
lookups read the latest binding for a key, so later channels overwrite
earlier ones on key collision, exactly as in Python. -/
abbrev BioInfo := List (String × List Nat)

/-- Lookup in a `BioInfo` mapping: the value of the latest binding, if any. -/
def infoLookup (info : BioInfo) (key : String) : Option (List Nat) :=
  ((info.filter fun b => b.1 == key).getLast?).map (·.2)

/-- The `ecg` argument of `bio_process` (lines 89-117): absent, a raw vector,
or a bundled multi-channel data frame from which the other channels and the
pass-through table are extracted by fixed column names. -/
inductive EcgArg where
  | absent
  | vec (v : Signal)
  | frame (d : DataFrame)

/-- Model of `bio_process` (bio_process.py lines 85-155).  The per-channel
pipelines `ecg_process`, `rsp_process`, `eda_process`, `emg_process` and the
input validator `sanitize_input` are external collaborators declared out of scope
by the spec (§1, §6); they enter as function parameters, so every theorem
about `bio_process` holds for arbitrary collaborator behaviour.  Channels are
processed in the fixed source order ECG, RSP, EDA, EMG, then the pass-through
table (`keep.reset_index(drop=True)` is the identity here because our tables
are positional). -/
def bio_process (sanitize_input : Signal → Signal)
    (ecg_process rsp_process eda_process emg_process : Signal → Nat → DataFrame × BioInfo)
    (ecg : EcgArg) (rsp eda emg : Option Signal) (keep : Option DataFrame)
    (sampling_rate : Nat) : DataFrame × BioInfo :=
  let resolved : Option Signal × Option Signal × Option Signal × Option Signal × Option DataFrame :=
    match ecg with
    | .absent => (none, rsp, eda, emg, keep)
    | .vec v => (some v, rsp, eda, emg, keep)
    | .frame data =>
      let rsp2 := dfColumn? data.cols "RSP"
      let eda2 := dfColumn? data.cols "EDA"
      let emg2 := dfColumn? data.cols "EMG"
      let ecg2 :=
        match dfColumn? data.cols "ECG" with
        | some c => some c
        | none => dfColumn? data.cols "EKG"
      let keepKeys := data.cols.filter fun b => ! ["ECG", "EKG", "RSP", "EDA", "EMG"].contains b.1
      let keep2 := if keepKeys.isEmpty then none else some ⟨keepKeys⟩
      (ecg2, rsp2, eda2, emg2, keep2)
  match resolved with
  | (ecgO, rspO, edaO, emgO, keepO) =>
    let acc0 : DataFrame × BioInfo := (⟨[]⟩, [])
    let acc1 :=
      match ecgO with
      | none => acc0
      | some ch =>
        let r := ecg_process (sanitize_input ch) sampling_rate
        (⟨acc0.1.cols ++ r.1.cols⟩, acc0.2 ++ r.2)
    let acc2 :=
      match rspO with
      | none => acc1
      | some ch =>
        let r := rsp_process (sanitize_input ch) sampling_rate
        (⟨acc1.1.cols ++ r.1.cols⟩, acc1.2 ++ r.2)
    let acc3 :=
      match edaO with
      | none => acc2
      | some ch =>
        let r := eda_process (sanitize_input ch) sampling_rate
        (⟨acc2.1.cols ++ r.1.cols⟩, acc2.2 ++ r.2)
    let acc4 :=
      match emgO with
      | none => acc3
      | some ch =>
        let r := emg_process (sanitize_input ch) sampling_rate
        (⟨acc3.1.cols ++ r.1.cols⟩, acc3.2 ++ r.2)
    match keepO with
    | none => acc4
    | some k => (⟨acc4.1.cols ++ k.cols⟩, acc4.2)

/-- Columns contributed by an optional channel run through its pipeline. -/
def channelCols (sanitize_input : Signal → Signal)
    (proc : Signal → Nat → DataFrame × BioInfo) (sampling_rate : Nat) :
    Option Signal → List (String × Signal)
  | none => []
  | some v => (proc (sanitize_input v) sampling_rate).1.cols

/-- Info bindings contributed by an optional channel run through its pipeline. -/
def channelInfo (sanitize_input : Signal → Signal)
    (proc : Signal → Nat → DataFrame × BioInfo) (sampling_rate : Nat) :
    Option Signal → BioInfo
  | none => []
  | some v => (proc (sanitize_input v) sampling_rate).2

/-- Columns of an optional pass-through table. -/
def keepColsOf : Option DataFrame → List (String × Signal)
  | none => []
  | some k => k.cols

/-- View of an optional raw cardiac vector as the `ecg` argument. -/
def toEcgArg : Option Signal → EcgArg
  | none => .absent
  | some v => .vec v

theorem infoLookup_append (d₁ d₂ : BioInfo) (key : String) :
    infoLookup (d₁ ++ d₂) key = (infoLookup d₂ key).or (infoLookup d₁ key) := by
  unfold infoLookup
  rw [List.filter_append, List.getLast?_append]
  cases (List.filter (fun b => b.1 == key) d₂).getLast? <;> simp

theorem infoLookup_nil (key : String) : infoLookup [] key = none := rfl

/-! ### Error-path and pointwise lemmas -/

/-- `npAbs` agrees with the absolute value. -/
theorem npAbs_eq_abs (x : ℚ) : npAbs x = |x| := by
  unfold npAbs
  split_ifs with h
  · exact (abs_of_neg h).symm
  · exact (abs_of_nonneg (not_lt.mp h)).symm

/-- With a missing rising or falling crossing, the Extrema Locator raises the
`IndexError` of `risex[0]` / `fallx[0]`. -/
theorem extrema_error_of_missing_cross {sig : Signal}
    (h : risex sig = [] ∨ fallx sig = []) :
    _rsp_findpeaks_extrema sig = .error .indexError := by
  unfold _rsp_findpeaks_extrema
  rcases h with h | h
  · rw [h]
  · rcases hrx : risex sig with _ | ⟨a, l⟩
    · rfl
    · rw [h]

/-- With fewer than two surviving amplitudes the Alternation Sanitizer raises
the `IndexError` of `amplitudes[0] > amplitudes[1]`. -/
theorem sanitize_error_of_short {extrema : List Nat} {amplitudes : List ℚ}
    (h : amplitudes.length < 2) :
    _rsp_findpeaks_sanitize extrema amplitudes = .error .indexError := by
  unfold _rsp_findpeaks_sanitize
  rw [if_pos h]

theorem npDelete_length [Inhabited α] (l : List α) (idxs : List Nat) :
    (npDelete l idxs).length =
      ((List.range l.length).filter fun i => ! idxs.contains i).length := by
  simp [npDelete]

/-- The two outputs of the Outlier Filter have equal length. -/
theorem outliers_lengths_eq (sig : Signal) (ext : List Nat) (t : ℚ) :
    (_rsp_findpeaks_outliers sig ext t).1.length =
      (_rsp_findpeaks_outliers sig ext t).2.length := by
  unfold _rsp_findpeaks_outliers
  rw [npDelete_length, npDelete_length, List.length_map]

/-- A `khodadad2018`-chain error propagates through `rsp_findpeaks` on a raw
input signal. -/
theorem rsp_findpeaks_raw_of_khodadad_error {sig : Signal} {t : ℚ} {e : PyError}
    (hk : _rsp_findpeaks_khodadad sig t = .error e) :
    rsp_findpeaks (.raw sig) "khodadad2018" t = .error e := by
  unfold rsp_findpeaks
  split
  next e' heq => exact (Except.noConfusion heq)
  next cleaned heq =>
    injection heq with heqc
    subst heqc
    dsimp only
    rw [if_pos (show (["khodadad", "khodadad2018"].contains (pyLower "khodadad2018")) = true
      from rfl), hk]

/-- Pointwise description of the vertical-distance array. -/
theorem verticalDiff_getD {sig : Signal} {ext : List Nat} {i : Nat}
    (hi : i < ext.length - 1) :
    (verticalDiff sig ext).getD i 0 =
      |sig.getD (ext.getD (i + 1) 0) 0 - sig.getD (ext.getD i 0) 0| := by
  have hi1 : i + 1 < ext.length := by omega
  have hii : i < ext.length := by omega
  unfold verticalDiff
  rw [List.getD_eq_getElem?_getD, List.getElem?_zipWith, List.getElem?_tail,
    List.getElem?_map, List.getElem?_map,
    List.getElem?_eq_getElem hii, List.getElem?_eq_getElem hi1]
  rw [show ext.getD (i + 1) 0 = ext[i + 1] from by
        rw [List.getD_eq_getElem?_getD, List.getElem?_eq_getElem hi1]; rfl,
      show ext.getD i 0 = ext[i] from by
        rw [List.getD_eq_getElem?_getD, List.getElem?_eq_getElem hii]; rfl]
  simp [npAbs_eq_abs]

/-! ### Claim theorems

The rational arithmetic operations are `@[irreducible]` in the library;
witness theorems evaluate the pipeline on concrete rational inputs by `rfl`
and `decide`, so they are made semireducible for the remainder of the file
(the kernel ignores reducibility attributes, so this changes nothing about
what is proved). -/

section ClaimTheorems

attribute [local semireducible] Rat.sub Rat.add Rat.mul Rat.inv

/-- C1: for every input signal on which `rsp_findpeaks` succeeds, the
returned "RSP_Peaks" and "RSP_Troughs" index sequences have equal length,
and for every valid `i`, `Troughs[i] < Peaks[i] < Troughs[i+1]` (strict
alternation starting with a trough and ending with a peak). -/
theorem C1_alternation_invariant (inp : RspInput) (method : String) (t : ℚ)
    (tbl : RspSignals) (info : RspInfo)
    (h : rsp_findpeaks inp method t = .ok (tbl, info)) :
    info.RSP_Peaks.length = info.RSP_Troughs.length ∧
    ∀ i, i < info.RSP_Peaks.length →
      info.RSP_Troughs.getD i 0 < info.RSP_Peaks.getD i 0 ∧
      (i + 1 < info.RSP_Troughs.length →
        info.RSP_Peaks.getD i 0 < info.RSP_Troughs.getD (i + 1) 0) := by
  obtain ⟨cleaned, t', -, hk, -, -, -⟩ := rsp_findpeaks_ok_parts h
  exact khodadad_ok_props hk

/-- Witness for C1 at a concrete oscillating signal: the run succeeds with
peaks `[1]` and troughs `[0]`, and the alternation properties hold there. -/
theorem C1_witness :
    rsp_findpeaks (.raw [-1, 1, -1, 1, -1, 1]) "khodadad2018" (3/10) =
      .ok (⟨[0, 1, 0, 0, 0, 0], [1, 0, 0, 0, 0, 0],
            [some 1, some 0, none, none, none, none]⟩, ⟨[1], [0]⟩) ∧
    (([1] : List Nat).length = ([0] : List Nat).length ∧
      ∀ i, i < ([1] : List Nat).length →
        ([0] : List Nat).getD i 0 < ([1] : List Nat).getD i 0 ∧
        (i + 1 < ([0] : List Nat).length →
          ([1] : List Nat).getD i 0 < ([0] : List Nat).getD (i + 1) 0)) :=
  have h : rsp_findpeaks (.raw [-1, 1, -1, 1, -1, 1]) "khodadad2018" (3/10) =
      .ok (⟨[0, 1, 0, 0, 0, 0], [1, 0, 0, 0, 0, 0],
            [some 1, some 0, none, none, none, none]⟩, ⟨[1], [0]⟩) := rfl
  ⟨h, C1_alternation_invariant (.raw [-1, 1, -1, 1, -1, 1]) "khodadad2018" (3/10)
    ⟨[0, 1, 0, 0, 0, 0], [1, 0, 0, 0, 0, 0], [some 1, some 0, none, none, none, none]⟩
    ⟨[1], [0]⟩ h⟩

/-- C2: for every input and every outlier_threshold, calling `rsp_findpeaks`
with method "biosppy" returns exactly the same table and info as calling it
with method "khodadad2018" and outlier_threshold 0. -/
theorem C2_biosppy_eq_khodadad_zero (inp : RspInput) (t : ℚ) :
    rsp_findpeaks inp "biosppy" t = rsp_findpeaks inp "khodadad2018" 0 := by
  unfold rsp_findpeaks
  cases getRespirationColumn inp with
  | error e => rfl
  | ok cleaned => rfl

/-- Counterexample to C3 as stated: on a signal with no zero-crossing at all,
`rsp_findpeaks` fails with the raw `IndexError` of `risex[0]` on an empty
array; the code raises no "insufficient oscillation" domain error. -/
theorem C3_counterexample :
    rsp_findpeaks (.raw [1, 1, 1, 1]) "khodadad2018" (3/10) = .error .indexError := rfl

/-- C3 as amended: for every input signal with no rising crossing or no
falling crossing (in particular any signal with fewer than 2 zero-crossings),
`rsp_findpeaks` fails with the raw index-out-of-range fault (`IndexError`
from indexing an empty crossing array), not with a domain error. -/
theorem C3_amended (sig : Signal) (t : ℚ) (h : risex sig = [] ∨ fallx sig = []) :
    rsp_findpeaks (.raw sig) "khodadad2018" t = .error .indexError := by
  apply rsp_findpeaks_raw_of_khodadad_error
  unfold _rsp_findpeaks_khodadad
  rw [extrema_error_of_missing_cross h]

/-- Witness for the amended C3 at the all-zero signal (no crossings). -/
theorem C3_witness :
    (risex ([0, 0, 0] : Signal) = [] ∨ fallx ([0, 0, 0] : Signal) = []) ∧
    rsp_findpeaks (.raw [0, 0, 0]) "khodadad2018" 1 = .error .indexError :=
  ⟨Or.inl rfl, C3_amended [0, 0, 0] 1 (Or.inl rfl)⟩

/-- Counterexample to C4 as stated: on a valid oscillating signal (four
extrema are located) with the extreme threshold 5.0, `rsp_findpeaks` fails
with the raw `IndexError` of `amplitudes[0]` on an empty array; the code
raises no "not enough extrema" domain error. -/
theorem C4_counterexample :
    _rsp_findpeaks_extrema [-2, 1, -2, 1, -2, 1] = .ok [0, 1, 2, 3] ∧
    rsp_findpeaks (.raw [-2, 1, -2, 1, -2, 1]) "khodadad2018" 5 = .error .indexError :=
  ⟨rfl, rfl⟩

/-- C4 as amended: whenever fewer than 2 extrema survive the Outlier Filter,
`rsp_findpeaks` fails with the raw index-out-of-range fault (`IndexError`),
not with a domain error. -/
theorem C4_amended (sig : Signal) (t : ℚ) (ext : List Nat)
    (hex : _rsp_findpeaks_extrema sig = .ok ext)
    (hlen : (_rsp_findpeaks_outliers sig ext t).1.length < 2) :
    rsp_findpeaks (.raw sig) "khodadad2018" t = .error .indexError := by
  apply rsp_findpeaks_raw_of_khodadad_error
  unfold _rsp_findpeaks_khodadad
  rw [hex]
  dsimp only
  rcases ho : _rsp_findpeaks_outliers sig ext t with ⟨e2, amps⟩
  dsimp only
  have h2 : amps.length < 2 := by
    have hleq := outliers_lengths_eq sig ext t
    rw [ho] at hleq hlen
    dsimp only at hleq hlen
    omega
  rw [sanitize_error_of_short h2]

/-- Witness for the amended C4: with threshold 5.0 on an oscillating signal,
no extremum survives the thresholding step and the call fails with
`IndexError`. -/
theorem C4_witness :
    _rsp_findpeaks_extrema [-1, 1, -1, 1, -1, 1] = .ok [0, 1, 2, 3] ∧
    (_rsp_findpeaks_outliers [-1, 1, -1, 1, -1, 1] [0, 1, 2, 3] 5).1.length < 2 ∧
    rsp_findpeaks (.raw [-1, 1, -1, 1, -1, 1]) "khodadad2018" 5 = .error .indexError :=
  ⟨rfl, by decide, C4_amended [-1, 1, -1, 1, -1, 1] 5 [0, 1, 2, 3] rfl (by decide)⟩

/-- Counterexample to C5 as stated: with threshold 0 the thresholding step
does not retain all extrema — on the signal `[0, 1, 2]` with extrema
`[0, 1, 2]` it retains only `[0, 1]`, dropping the last extremum. -/
theorem C5_counterexample :
    outliersThreshold [0, 1, 2] [0, 1, 2] 0 = [0, 1] ∧
    outliersThreshold [0, 1, 2] [0, 1, 2] 0 ≠ [0, 1, 2] := by
  constructor
  · rfl
  · decide

/-- C5 as amended: with outlier_threshold 0 the thresholding step retains
exactly the extrema at difference positions whose adjacent amplitude
difference is strictly positive — every extremum except the last one and
except those with zero difference to their successor — so the filter does
not degenerate to alternation repair only. -/
theorem C5_amended (sig : Signal) (ext : List Nat) :
    outliersThreshold sig ext 0 =
      ((List.range (ext.length - 1)).filter fun i =>
        decide (0 < |sig.getD (ext.getD (i + 1) 0) 0 - sig.getD (ext.getD i 0) 0|)).map
        (fun i => ext.getD i 0) := by
  unfold outliersThreshold minDiffIdx
  rw [verticalDiff_length]
  congr 1
  apply List.filter_congr
  intro i hi
  rw [decide_eq_decide, mul_zero, verticalDiff_getD (List.mem_range.mp hi)]

/-- C10: for every signal, nonempty extrema sequence and threshold ≥ 0, the
thresholding step retains the extremum at position `i` exactly when
`i < n - 1` and the adjacent amplitude difference exceeds
`mean distance * threshold`; in particular no retained difference position
reaches `n - 1`, so the last extremum is always dropped. -/
theorem C10_thresholding_drops_last (sig : Signal) (ext : List Nat) (t : ℚ)
    (_hne : ext ≠ []) (_ht : 0 ≤ t) :
    (outliersThreshold sig ext t =
      ((List.range (ext.length - 1)).filter fun i =>
        decide (averageDiff sig ext * t <
          |sig.getD (ext.getD (i + 1) 0) 0 - sig.getD (ext.getD i 0) 0|)).map
        (fun i => ext.getD i 0)) ∧
    ∀ i ∈ minDiffIdx sig ext t, i < ext.length - 1 := by
  constructor
  · unfold outliersThreshold minDiffIdx
    rw [verticalDiff_length]
    congr 1
    apply List.filter_congr
    intro i hi
    rw [decide_eq_decide, verticalDiff_getD (List.mem_range.mp hi)]
  · intro i hi
    unfold minDiffIdx at hi
    have hr := List.mem_range.mp (List.mem_of_mem_filter hi)
    rwa [verticalDiff_length] at hr

/-- Witness for C10 at a concrete input: with threshold 1 no adjacent
difference exceeds the mean, so no extremum is retained, and no retained
position reaches the last extremum. -/
theorem C10_witness :
    (([0, 1, 2] : List Nat) ≠ [] ∧ (0 : ℚ) ≤ 1) ∧
    ((outliersThreshold [0, 1, 2] [0, 1, 2] 1 =
      ((List.range (([0, 1, 2] : List Nat).length - 1)).filter fun i =>
        decide (averageDiff [0, 1, 2] [0, 1, 2] * 1 <
          |([0, 1, 2] : Signal).getD (([0, 1, 2] : List Nat).getD (i + 1) 0) 0 -
            ([0, 1, 2] : Signal).getD (([0, 1, 2] : List Nat).getD i 0) 0|)).map
        (fun i => ([0, 1, 2] : List Nat).getD i 0)) ∧
      ∀ i ∈ minDiffIdx [0, 1, 2] [0, 1, 2] 1, i < ([0, 1, 2] : List Nat).length - 1) :=
  ⟨⟨by decide, by decide⟩,
    C10_thresholding_drops_last [0, 1, 2] [0, 1, 2] 1 (by decide) (by decide)⟩

/-- C6 evaluated at the failing input: a table with only an "RSP_Raw" column
makes `rsp_findpeaks` raise `KeyError("RSP_Clean")` instead of using the
"RSP_Raw" column, because the `except` clauses catch `NameError` while
subscripting a table with a missing column raises `KeyError`, so the
fallback chain is unreachable. -/
theorem C6_column_fallback_keyerror :
    rsp_findpeaks (.table [("RSP_Raw", [-1, 1, -1, 1])]) "khodadad2018" (3/10) =
      .error (.keyError "RSP_Clean") := rfl

/-- C7: for every raw input signal and every method outside the allowed set
(compared case-insensitively), `rsp_findpeaks` raises the `ValueError`
naming the allowed methods, and returns no table or info. -/
theorem C7_invalid_method (sig : Signal) (method : String) (t : ℚ)
    (h : (["khodadad", "khodadad2018"].contains (pyLower method)) = false ∧
      ¬ pyLower method = "biosppy") :
    rsp_findpeaks (.raw sig) method t = .error (.valueError invalidMethodMsg) := by
  obtain ⟨h1, h2⟩ := h
  unfold rsp_findpeaks
  split
  next e heq => exact (Except.noConfusion heq)
  next cleaned heq =>
    injection heq with heqc
    subst heqc
    dsimp only
    rw [if_neg (show ¬ (["khodadad", "khodadad2018"].contains (pyLower method) = true) from by
      rw [h1]; simp), if_neg h2]

/-- Witness for C7 at the method "not_a_method". -/
theorem C7_witness :
    ((["khodadad", "khodadad2018"].contains (pyLower "not_a_method")) = false ∧
      ¬ pyLower "not_a_method" = "biosppy") ∧
    rsp_findpeaks (.raw [1, -1]) "not_a_method" (3/10) =
      .error (.valueError invalidMethodMsg) :=
  ⟨⟨rfl, by decide⟩, C7_invalid_method [1, -1] "not_a_method" (3/10) ⟨rfl, by decide⟩⟩

/-- C8: for every successful `rsp_findpeaks` output, the "RSP_Inspiration"
series is undefined at every position strictly after the last marked
peak/trough index, and holds a value in {0.0, 1.0} at every position between
the first and the last marked index inclusive. -/
theorem C8_phase_boundary (inp : RspInput) (method : String) (t : ℚ)
    (tbl : RspSignals) (info : RspInfo) (F L : Nat)
    (h : rsp_findpeaks inp method t = .ok (tbl, info))
    (hF : (markedIdx tbl.RSP_Peaks tbl.RSP_Troughs).head? = some F)
    (hL : (markedIdx tbl.RSP_Peaks tbl.RSP_Troughs).getLast? = some L) :
    (∀ j, L < j → tbl.RSP_Inspiration.getD j none = none) ∧
    (∀ j, F ≤ j → j ≤ L →
      ∃ v, tbl.RSP_Inspiration.getD j none = some v ∧ (v = 0 ∨ v = 1)) := by
  obtain ⟨cleaned, t', -, -, -, -, hph⟩ := rsp_findpeaks_ok_parts h
  exact phase_ok_props hph hF hL

/-- Witness for C8 at a concrete successful run: the first marked index is 0,
the last is 1, the series is undefined after position 1 and holds 1.0 then
0.0 on positions 0 and 1. -/
theorem C8_witness :
    (rsp_findpeaks (.raw [-1, 1, -1, 1, -1, 1]) "khodadad2018" (1/2) =
      .ok (⟨[0, 1, 0, 0, 0, 0], [1, 0, 0, 0, 0, 0],
            [some 1, some 0, none, none, none, none]⟩, ⟨[1], [0]⟩)) ∧
    (markedIdx [0, 1, 0, 0, 0, 0] [1, 0, 0, 0, 0, 0]).head? = some 0 ∧
    (markedIdx [0, 1, 0, 0, 0, 0] [1, 0, 0, 0, 0, 0]).getLast? = some 1 ∧
    ((∀ j, 1 < j →
        ([some 1, some 0, none, none, none, none] : List (Option ℚ)).getD j none = none) ∧
      (∀ j, 0 ≤ j → j ≤ 1 →
        ∃ v, ([some 1, some 0, none, none, none, none] : List (Option ℚ)).getD j none =
          some v ∧ (v = 0 ∨ v = 1))) :=
  have h : rsp_findpeaks (.raw [-1, 1, -1, 1, -1, 1]) "khodadad2018" (1/2) =
      .ok (⟨[0, 1, 0, 0, 0, 0], [1, 0, 0, 0, 0, 0],
            [some 1, some 0, none, none, none, none]⟩, ⟨[1], [0]⟩) := rfl
  ⟨h, rfl, rfl, C8_phase_boundary (.raw [-1, 1, -1, 1, -1, 1]) "khodadad2018" (1/2)
    ⟨[0, 1, 0, 0, 0, 0], [1, 0, 0, 0, 0, 0], [some 1, some 0, none, none, none, none]⟩
    ⟨[1], [0]⟩ 0 1 h (by decide) (by decide)⟩

/-- C9: for every combination of supplied channels and arbitrary collaborator
pipelines, `bio_process` merges in the fixed order ECG, RSP, EDA, EMG, then
the pass-through table: the merged table's columns appear grouped in that
order, and every key lookup in the merged info resolves to the value of the
latest-processed channel that bound it (later channels win on collision). -/
theorem C9_fixed_order_merge (sanitize_input : Signal → Signal)
    (ecg_process rsp_process eda_process emg_process : Signal → Nat → DataFrame × BioInfo)
    (ecg rsp eda emg : Option Signal) (keep : Option DataFrame) (sampling_rate : Nat) :
    (bio_process sanitize_input ecg_process rsp_process eda_process emg_process
        (toEcgArg ecg) rsp eda emg keep sampling_rate).1.cols =
      channelCols sanitize_input ecg_process sampling_rate ecg ++
      channelCols sanitize_input rsp_process sampling_rate rsp ++
      channelCols sanitize_input eda_process sampling_rate eda ++
      channelCols sanitize_input emg_process sampling_rate emg ++
      keepColsOf keep ∧
    ∀ key, infoLookup (bio_process sanitize_input ecg_process rsp_process eda_process
        emg_process (toEcgArg ecg) rsp eda emg keep sampling_rate).2 key =
      ((infoLookup (channelInfo sanitize_input emg_process sampling_rate emg) key).or
        ((infoLookup (channelInfo sanitize_input eda_process sampling_rate eda) key).or
          ((infoLookup (channelInfo sanitize_input rsp_process sampling_rate rsp) key).or
            (infoLookup (channelInfo sanitize_input ecg_process sampling_rate ecg) key)))) := by
  rcases ecg with _ | e <;> rcases rsp with _ | r <;> rcases eda with _ | d <;>
    rcases emg with _ | m <;> rcases keep with _ | k <;>
    refine ⟨?_, fun key => ?_⟩ <;>
    simp [bio_process, toEcgArg, channelCols, channelInfo, keepColsOf,
      infoLookup_append, infoLookup_nil, Option.or_assoc]

end ClaimTheorems

end NKMice
